import Mathlib

/-!
Verification of the docstring-inheritance core.

A shallow embedding, in Lean 4, of the docstring parsing / merging / rendering
pipeline of the `docstring-inheritance` Python package, together with theorems
settling a list of claims about it.

The embedding follows the source files:

* `src/docstring_inheritance/docstring_inheritors/bases/inheritor.py`
  (`BaseDocstringInheritor`: `inherit`, `_inherit_sections`,
  `_filter_args_section`, the `SIMILARITY_RATIO` module constants),
* `src/docstring_inheritance/docstring_inheritors/base.py`
  (`AbstractDocstringInheritor`: `_parse_sections`, `_get_section_body`,
  `_render_docstring`, `_parse_section_items`, `_SECTION_NAMES`),
* `src/docstring_inheritance/docstring_inheritors/google.py`
  (`DocstringParser._parse_one_section`, `DocstringParser._get_section_body`,
  `DocstringRenderer._render_section`),
* `src/docstring_inheritance/docstring_inheritors/numpy.py`
  (`NumpyDocstringInheritor._parse_one_section`, `._render_section`).

Python `dict`s (insertion ordered, unique keys) are modelled as association
lists with Python's assignment semantics (`dinsert` replaces the value of an
existing key in place, otherwise appends).  Python `str` is modelled by
`String` at the data-model level and `List Char` inside the text algorithms.
Character classes (`str.strip`, `\w`, ...) are modelled for the ASCII
repertoire actually used by docstrings.
-/

set_option linter.unusedVariables false
set_option linter.unusedSectionVars false

namespace DocstringInheritance

/-! ## Python dicts as association lists -/

variable {κ : Type} {α : Type} [DecidableEq κ]

/-- Embeds `d[k]`-lookup returning an option: value of the first entry whose key is `k`
(in a Python dict keys are unique, so the first entry is the entry). -/
def dget? : List (κ × α) → κ → Option α
  | [], _ => none
  | (k', v) :: d, k => if k' = k then some v else dget? d k

/-- Embeds `k in d`. -/
def dcontains (d : List (κ × α)) (k : κ) : Bool :=
  (dget? d k).isSome

/-- Embeds `d.get(k, dflt)`. -/
def dgetD (d : List (κ × α)) (k : κ) (dflt : α) : α :=
  (dget? d k).getD dflt

/-- Python dict assignment `d[k] = v`: replace the value of an existing key in
place, otherwise append the new entry. -/
def dinsert : List (κ × α) → κ → α → List (κ × α)
  | [], k, v => [(k, v)]
  | (k', v') :: d, k, v => if k' = k then (k, v) :: d else (k', v') :: dinsert d k v

/-- A `for`-loop of dict assignments: insert one entry per element of `l`,
with key `kf e` and value `vf e`. -/
def dinsertMany {β : Type} (t₀ : List (κ × α)) (l : List β) (kf : β → κ)
    (vf : β → α) : List (κ × α) :=
  l.foldl (fun t e => dinsert t (kf e) (vf e)) t₀

/-- Embeds `d1.update(d2)` (also `dict.update`): assignments of `d2`'s entries into
`d1`, left to right. -/
def dupdate (d₁ d₂ : List (κ × α)) : List (κ × α) :=
  dinsertMany d₁ d₂ Prod.fst Prod.snd

/-- Embeds `del d[k]` (no-op when the key is absent, where Python would raise). -/
def dpop : List (κ × α) → κ → List (κ × α)
  | [], _ => []
  | (k', v) :: d, k => if k' = k then d else (k', v) :: dpop d k

/-- Embeds `list(d)`: the keys, in insertion order. -/
def dkeys (d : List (κ × α)) : List κ :=
  d.map (·.1)

/-! ## Signatures: `inspect.getfullargspec` output

The spec's "Signature shape": ordered positional names, an optional
variadic-positional name, ordered keyword-only names, an optional
variadic-keyword name.  (`inspect` is the external introspection collaborator;
only the shape of its output is relevant.) -/

structure FullArgSpec where
  args : List String
  varargs : Option String
  kwonlyargs : List String
  varkw : Option String
deriving DecidableEq, Repr

/-- Embeds `all_args.remove("self")` guarded by `if "self" in all_args`: drop the
first occurrence of `"self"`, if any. -/
def removeSelf : List String → List String
  | [] => []
  | a :: l => if a = "self" then l else a :: removeSelf l

/-- The ordered argument-name list built by
`BaseDocstringInheritor._filter_args_section` (and identically by
`AbstractDocstringInheritor._filter_args_section`): positional arguments with
`"self"` dropped, then `*varargs`, then keyword-only names, then `**varkw`. -/
def allArgs (s : FullArgSpec) : List String :=
  let a := removeSelf s.args
  let a := a ++ (match s.varargs with | some v => ["*" ++ v] | none => [])
  let a := a ++ s.kwonlyargs
  a ++ (match s.varkw with | some v => ["**" ++ v] | none => [])

/-- Embeds `BaseDocstringInheritor._filter_args_section`, body of the final loop,
together with the warnings it emits: for each signature-derived name the
source first calls `self._warn(..., "The docstring for the argument '{arg}'
is missing.")` (unconditionally, in this revision) and then sets
`ordered_section[arg] = section_items.get(arg, missing_arg_text)`.
The first component is the resulting section, the second the list of argument
names a missing-description warning was emitted for. -/
def filterArgsSectionWithWarnings (missingArgText : String)
    (sectionItems : List (String × String)) (s : FullArgSpec) :
    List (String × String) × List String :=
  (allArgs s).foldl
    (fun acc arg =>
      (dinsert acc.1 arg (dgetD sectionItems arg missingArgText), acc.2 ++ [arg]))
    ([], [])

/-- Embeds `BaseDocstringInheritor._filter_args_section`: the returned
`ordered_section`. -/
def filterArgsSection (missingArgText : String)
    (sectionItems : List (String × String)) (s : FullArgSpec) :
    List (String × String) :=
  (filterArgsSectionWithWarnings missingArgText sectionItems s).1

/-! ## The Section Model -/

/-- A section value: prose text, or an ordered item-name → item-description
mapping (`SectionsType = Dict[Optional[str], Union[str, Dict[str, str]]]`). -/
inductive SectionValue where
  | prose (text : String)
  | items (entries : List (String × String))
deriving DecidableEq, Repr

/-- A parsed docstring: ordered mapping from section key to section value.
The key `none` is the summary sentinel (Python `None`). -/
abbrev Sections := List (Option String × SectionValue)

/-- The `cast(Dict[str, str], ...)` reads in `_inherit_sections` and
`_filter_args_section`: the Python code assumes the value is a dict.  For a
prose value Python would raise `AttributeError`; the parser only ever stores
mappings under item-section names, so that case is unreachable there. -/
def asItems : SectionValue → List (String × String)
  | .items d => d
  | .prose _ => []

/-- Membership of an optional section key in the dialect's item-section name
set (the summary key `None` is never an item section). -/
def inItemsSet (itemsSet : List String) : Option String → Bool
  | none => false
  | some n => n ∈ itemsSet

/-- Embeds `BaseDocstringInheritor._inherit_sections`, construction of
`temp_sections` (lines 212-242): sections in the parent but not the child, then
all the child's sections, then — for item sections common to both — the
parent's mapping updated by the child's.  The Python code iterates key *sets*
here; iteration order of those sets is unspecified in Python, and is modelled
as parent order (for parent-only and common keys) and child order (for child
keys). -/
def tempSections (itemsSet : List String) (parent child : Sections) : Sections :=
  let parentOnly := parent.filter (fun e => ¬ dcontains child e.1)
  let t := dinsertMany parentOnly child Prod.fst Prod.snd
  let commons := parent.filter (fun e => dcontains child e.1 && inItemsSet itemsSet e.1)
  dinsertMany t commons Prod.fst
    (fun e => SectionValue.items
      (dupdate (asItems e.2) (asItems (dgetD child e.1 (.items [])))))

/-- Embeds `temp_sections.get(args_section_name, {})` as read by the args-filter step
of `_inherit_sections`: the merged parent/child argument-item mapping. -/
def mergedArgsItems (itemsSet : List String) (argsName : String)
    (parent child : Sections) : List (String × String) :=
  asItems (dgetD (tempSections itemsSet parent child) (some argsName) (.items []))

/-- Reordering step of `_inherit_sections` (lines 257-268): the standard
section names first, in their canonical order, then the remaining
(non-standard) sections. -/
def reorderSections (sectionNames : List (Option String)) (t : Sections) : Sections :=
  sectionNames.filterMap (fun n => (dget? t n).map (fun v => (n, v)))
    ++ t.filter (fun e => decide (e.1 ∉ sectionNames))

/-- Embeds `BaseDocstringInheritor._inherit_sections`
(`bases/inheritor.py`, lines 184-268): merge the parent and child sections,
filter the args section against the signature (inserting the
missing-description text, dropping the section when the signature yields no
argument name), and reorder.  The mutation of `child_sections` in place is
modelled by returning the new mapping. -/
def inheritSections (itemsSet : List String) (argsName : String)
    (sectionNames : List (Option String)) (missingArgText : String)
    (parent child : Sections) (s : FullArgSpec) : Sections :=
  let t := tempSections itemsSet parent child
  let argsSection := filterArgsSection missingArgText
    (mergedArgsItems itemsSet argsName parent child) s
  let t := if argsSection.isEmpty
    then dpop t (some argsName)
    else dinsert t (some argsName) (.items argsSection)
  reorderSections sectionNames t

/-! ## Text utilities (Python `str` methods, `inspect.cleandoc`, `textwrap`) -/

/-- Python whitespace, restricted to the characters that occur in docstrings. -/
def pyWs (c : Char) : Bool :=
  c = ' ' ∨ c = '\t' ∨ c = '\n' ∨ c = '\r'

/-- Embeds `s.split('\n')` (always at least one piece). -/
def splitOnNl : List Char → List (List Char)
  | [] => [[]]
  | c :: cs =>
    if c = '\n' then [] :: splitOnNl cs
    else
      match splitOnNl cs with
      | l :: ls => (c :: l) :: ls
      | [] => [[c]]

/-- Embeds `'\n'.join(lines)`. -/
def joinNl : List (List Char) → List Char
  | [] => []
  | [l] => l
  | l :: ls => l ++ '\n' :: joinNl ls

/-- Embeds `s.lstrip()`. -/
def lstripWs (l : List Char) : List Char :=
  l.dropWhile pyWs

/-- Embeds `s.rstrip()`. -/
def rstripWs (l : List Char) : List Char :=
  (lstripWs l.reverse).reverse

/-- Embeds `s.strip()`. -/
def stripWs (l : List Char) : List Char :=
  rstripWs (lstripWs l)

/-- Embeds `s.rstrip(" :")` (used to produce a Google section name). -/
def rstripColonSpace (l : List Char) : List Char :=
  ((l.reverse.dropWhile (fun c => c = ' ' ∨ c = ':'))).reverse

/-- Embeds `str.expandtabs()` with the default tab size 8 (`col` is the current
column; `\n` and `\r` reset it). -/
def expandTabsAux : List Char → Nat → List Char
  | [], _ => []
  | c :: cs, col =>
    if c = '\t' then
      let n := 8 - col % 8
      List.replicate n ' ' ++ expandTabsAux cs (col + n)
    else if c = '\n' ∨ c = '\r' then c :: expandTabsAux cs 0
    else c :: expandTabsAux cs (col + 1)

/-- Embeds `inspect.cleandoc`: expand tabs, strip the first line's leading
whitespace, remove from every later line the minimum indentation of the
non-blank later lines, and drop leading and trailing blank lines. -/
def cleandoc (s : List Char) : List Char :=
  let lines := splitOnNl (expandTabsAux s 0)
  let margin := lines.tail.foldl
    (fun m line =>
      let content := (lstripWs line).length
      if content ≠ 0 then min m (line.length - content) else m)
    1000000000
  let lines : List (List Char) := match lines with
    | [] => []
    | l0 :: rest =>
        lstripWs l0 :: (if margin < 1000000000 then rest.map (fun l => l.drop margin) else rest)
  let lines := (lines.reverse.dropWhile List.isEmpty).reverse
  let lines := lines.dropWhile List.isEmpty
  joinNl lines

/-- A `[ \t]` character (the whitespace class of `textwrap`'s regexes). -/
def dedentWs (c : Char) : Bool :=
  c = ' ' ∨ c = '\t'

/-- Longest common prefix of two character lists. -/
def commonPrefix : List Char → List Char → List Char
  | a :: as, b :: bs => if a = b then a :: commonPrefix as bs else []
  | _, _ => []

/-- One step of `textwrap.dedent`'s margin computation. -/
def marginStep (m i : List Char) : List Char :=
  if m.isPrefixOf i then m
  else if i.isPrefixOf m then i
  else commonPrefix m i

/-- Embeds `textwrap.dedent`: normalize whitespace-only lines to empty, compute the
common leading `[ \t]` margin of the remaining non-empty lines, and remove it
from every line that carries it. -/
def dedentChars (s : List Char) : List Char :=
  let lines := (splitOnNl s).map
    (fun l => if l ≠ [] ∧ l.all dedentWs then [] else l)
  let indents := lines.filterMap
    (fun l => if l.any (fun c => ¬ dedentWs c) then some (l.takeWhile dedentWs) else none)
  let margin := match indents with
    | [] => []
    | i :: is => is.foldl marginStep i
  joinNl (lines.map (fun l => if margin.isPrefixOf l then l.drop margin.length else l))

/-- Embeds `textwrap.indent(text, " " * 4)`: prefix four spaces to every line that
contains a non-whitespace character. -/
def indentFour (s : List Char) : List Char :=
  joinNl ((splitOnNl s).map
    (fun l => if lstripWs l ≠ [] then ' ' :: ' ' :: ' ' :: ' ' :: l else l))

/-! ## Item parsing: `_parse_section_items` and its regex

`_SECTION_ITEMS_REGEX = re.compile(r"(\**\w+)(.*?)(?:$|(?=\n\**\w+))",
flags=re.DOTALL)`; `_parse_section_items` is `dict(regex.findall(body))`. -/

/-- Python `\w` (ASCII repertoire). -/
def isWordChar (c : Char) : Bool :=
  c.isAlphanum ∨ c = '_'

/-- Match `\**\w+` at the head of the text: leading `*`s then at least one
word character.  Returns the matched token and the remaining text. -/
def matchItemName (cs : List Char) : Option (List Char × List Char) :=
  let stars := cs.takeWhile (· = '*')
  let rest := cs.drop stars.length
  let word := rest.takeWhile isWordChar
  if word.isEmpty then none else some (stars ++ word, rest.drop word.length)

/-- The lazy `(.*?)(?:$|(?=\n\**\w+))` part: consume the description up to the
end of text or up to (not including) a newline followed by an item token.
Without `re.MULTILINE`, `$` also matches just before a newline that ends the
text, so a body-final newline is left out of the last description. -/
def scanDesc : List Char → List Char × List Char
  | [] => ([], [])
  | [c] => if c = '\n' then ([], [c]) else ([c], [])
  | c :: cs =>
    if c = '\n' ∧ (matchItemName cs).isSome then ([], c :: cs)
    else
      let (d, r) := scanDesc cs
      (c :: d, r)

/-- Embeds `regex.findall` for `_SECTION_ITEMS_REGEX`: scan left to right; wherever
`\**\w+` matches, capture the token and its lazy description, and resume after
the match.  The fuel argument bounds the recursion by the text length. -/
def findItemsAux : Nat → List Char → List (List Char × List Char)
  | 0, _ => []
  | _, [] => []
  | fuel + 1, c :: cs =>
    match matchItemName (c :: cs) with
    | some (name, rest) =>
        let (desc, rest2) := scanDesc rest
        (name, desc) :: findItemsAux fuel rest2
    | none => findItemsAux fuel cs

/-- The ordered list of `(item name, description)` occurrences the regex finds
in a section body (duplicated names may occur several times here). -/
def itemOccurrences (body : List Char) : List (String × String) :=
  (findItemsAux body.length body).map (fun e => (String.mk e.1, String.mk e.2))

/-- Embeds `AbstractDocstringInheritor._parse_section_items`:
`dict(regex.findall(section_body))` — the empty dict updated with the found
pairs in order, so a repeated item name keeps its last description. -/
def parseSectionItems (body : List Char) : List (String × String) :=
  dupdate [] (itemOccurrences body)

/-! ## Section names and dialect configuration -/

/-- Embeds `AbstractDocstringInheritor._SECTION_NAMES` (`base.py`, lines 55-71):
the canonical section order, the summary sentinel first. -/
def BASE_SECTION_NAMES : List (Option String) :=
  [none, some "Parameters", some "Returns", some "Yields", some "Receives",
   some "Other Parameters", some "Attributes", some "Methods", some "Raises",
   some "Warns", some "Warnings", some "See Also", some "Notes",
   some "References", some "Examples"]

/-- Embeds `google.py`: `SECTION_NAMES = list(BaseDocstringParser.SECTION_NAMES);
SECTION_NAMES[1] = "Args"`. -/
def GOOGLE_SECTION_NAMES : List (Option String) :=
  BASE_SECTION_NAMES.set 1 (some "Args")

/-- The Numpy dialect keeps the base list. -/
def NUMPY_SECTION_NAMES : List (Option String) :=
  BASE_SECTION_NAMES

/-- Embeds `google.py`: `SECTION_NAMES_WITH_ITEMS = {ARGS_SECTION_NAME, "Attributes",
"Methods"}`. -/
def GOOGLE_SECTION_NAMES_WITH_ITEMS : List String :=
  ["Args", "Attributes", "Methods"]

/-- Embeds `numpy.py`: `_SECTION_NAMES_WITH_ITEMS = {"Parameters"} |
{"OtherParameters", "Attributes", "Methods"}` (note the missing space in
`"OtherParameters"`, as in the source). -/
def NUMPY_SECTION_NAMES_WITH_ITEMS : List String :=
  ["Parameters", "OtherParameters", "Attributes", "Methods"]

/-- Embeds `MISSING_ARG_DESCRIPTION = "The description is missing."`. -/
def MISSING_ARG_DESCRIPTION : String := "The description is missing."

/-- Google `_MISSING_ARG_TEXT = f": {MISSING_ARG_DESCRIPTION}"`. -/
def GOOGLE_MISSING_ARG_TEXT : String := ": " ++ MISSING_ARG_DESCRIPTION

/-- Numpy `MISSING_ARG_DESCRIPTION = f"\n    {...}"` (`numpy.py`, lines
39-41). -/
def NUMPY_MISSING_ARG_TEXT : String := "\n    " ++ MISSING_ARG_DESCRIPTION

/-- A documentation dialect: its section-name constants plus its
`_parse_one_section` / `_get_section_body` / `_render_section` methods. -/
structure Dialect where
  sectionNames : List (Option String)
  itemsSet : List String
  argsName : String
  missingArgText : String
  parseOne : List Char → List Char → List (List Char) → Option (List Char × List Char)
  getBody : List (List Char) → List Char
  renderSection : Option String → SectionValue → List Char

/-! ## Parsing -/

/-- Embeds `AbstractDocstringInheritor._get_section_body`: drop the (reversed-order)
trailing blank lines, restore natural order, join. -/
def getSectionBodyBase (revLines : List (List Char)) : List Char :=
  joinNl (revLines.dropWhile List.isEmpty).reverse

/-- Google `DocstringParser._get_section_body`: the base behaviour followed by
`textwrap.dedent`. -/
def googleGetBody (revLines : List (List Char)) : List Char :=
  dedentChars (getSectionBodyBase revLines)

/-- Embeds `NumpyDocstringInheritor._parse_one_section`: `line2` (the lower line of
the pair) is an underline of at least 3 `-` or `=` characters at least as long
as the stripped `line1`, which is the section name. -/
def numpyParseOne (line1 line2r : List Char) (acc : List (List Char)) :
    Option (List Char × List Char) :=
  if line2r.length ≥ 3 ∧ (line2r.all (· = '-') ∨ line2r.all (· = '=')) then
    let line1s := rstripWs line1
    let minLen := line1s.length
    if (List.replicate minLen '-').isPrefixOf line2r
        ∨ (List.replicate minLen '=').isPrefixOf line2r then
      some (line1s, getSectionBodyBase acc)
    else none
  else none

/-- Google `DocstringParser._parse_one_section`: `line1` has no leading space,
ends with `:`, `line2` starts with two spaces, and the text before the colon is
one of the dialect's section names. -/
def googleParseOne (names : List (Option String)) (line1 line2r : List Char)
    (acc : List (List Char)) : Option (List Char × List Char) :=
  let line1r := rstripWs line1
  if ¬ ([' '].isPrefixOf line1r)
      ∧ ([':'].isSuffixOf line1r)
      ∧ ((' ' :: [' ']).isPrefixOf line2r)
      ∧ (some (String.mk (stripWs line1r.dropLast)) ∈ names) then
    some (rstripColonSpace line1r, googleGetBody (acc ++ [line2r]))
  else none

/-- Scan state of `_parse_sections`' main loop: whether the scan fell off the
start of the text (`has_summary`), the accumulated reversed body lines, and
the sections found so far (in reversed discovery order). -/
def parseLoopAux (d : Dialect) :
    Nat → List (List Char) → List (List Char) → List (String × SectionValue) →
    Bool × List (List Char) × List (String × SectionValue)
  | 0, _, acc, secs => (true, acc, secs)
  | _ + 1, [], acc, secs => (true, acc, secs)
  | _ + 1, [_], acc, secs => (true, acc, secs)
  | fuel + 1, l2 :: l1 :: rest, acc, secs =>
    let l2r := rstripWs l2
    match d.parseOne l1 l2r acc with
    | some (name, body) =>
        let nameS := String.mk name
        let value := if nameS ∈ d.itemsSet
          then SectionValue.items (parseSectionItems body)
          else SectionValue.prose (String.mk body)
        let secs := dinsert secs nameS value
        if rest.isEmpty then (false, acc, secs)
        else parseLoopAux d fuel rest [] secs
    | none => parseLoopAux d fuel (l1 :: rest) (acc ++ [l2r]) secs

/-- Embeds `AbstractDocstringInheritor._parse_sections` (`base.py`, lines 145-212):
`cleandoc`, then scan reversed line pairs for section headers; the text before
the first header is the summary.  (For a non-empty docstring that `cleandoc`s
to the empty string the Python code raises `IndexError` on `lines[0]`; the
model returns the empty summary there.)  `None`/empty input yields the empty
model. -/
def parseSections (d : Dialect) (doc : Option String) : Sections :=
  match doc with
  | none => []
  | some s =>
    if s = "" then []
    else
      let lines := splitOnNl (cleandoc s.data)
      let (hasSummary, acc, revSecs) :=
        parseLoopAux d lines.length lines.reverse [] []
      let base : Sections :=
        if hasSummary then
          [(none, .prose (String.mk (d.getBody (acc ++ [lines.headD []]))))]
        else []
      revSecs.reverse.foldl (fun secs e => dinsert secs (some e.1) e.2) base

/-! ## Rendering -/

/-- The `assert isinstance(section_body, str)` read of the summary value in
both `_render_section`s; an items value there would fail the assertion and is
unreachable for parser-produced sections. -/
def proseOf : SectionValue → String
  | .prose s => s
  | .items _ => ""

/-- The shared item-body serialization `"\n".join(f"{key}{value}" ...)`. -/
def itemsBody (entries : List (String × String)) : List Char :=
  joinNl (entries.map (fun e => e.1.data ++ e.2.data))

/-- Embeds `NumpyDocstringInheritor._render_section`: `name\n<dashes>\nbody`. -/
def numpyRenderSection (name? : Option String) (v : SectionValue) : List Char :=
  match name? with
  | none => (proseOf v).data
  | some n =>
    let body := match v with
      | .prose s => s.data
      | .items entries => itemsBody entries
    n.data ++ '\n' :: List.replicate n.length '-' ++ '\n' :: body

/-- Google `DocstringRenderer._render_section`: `name:\n<body indented by four
spaces>`. -/
def googleRenderSection (name? : Option String) (v : SectionValue) : List Char :=
  match name? with
  | none => (proseOf v).data
  | some n =>
    let body := match v with
      | .prose s => s.data
      | .items entries => itemsBody entries
    n.data ++ ':' :: '\n' :: indentFour body

/-- Embeds `"\n\n".join(rendered_sections)`. -/
def joinBlankLine : List (List Char) → List Char
  | [] => []
  | [l] => l
  | l :: ls => l ++ '\n' :: '\n' :: joinBlankLine ls

/-- Embeds `AbstractDocstringInheritor._render_docstring` (`base.py`, lines 333-358):
render each section, join with blank lines, and prefix one empty line when
there is no summary section. -/
def renderDocstring (d : Dialect) (secs : Sections) : String :=
  if secs.isEmpty then ""
  else
    let rendered := joinBlankLine (secs.map (fun e => d.renderSection e.1 e.2))
    if dcontains secs none then String.mk rendered
    else String.mk ('\n' :: rendered)

/-- The Google dialect, assembled from `google.py`. -/
def googleDialect : Dialect where
  sectionNames := GOOGLE_SECTION_NAMES
  itemsSet := GOOGLE_SECTION_NAMES_WITH_ITEMS
  argsName := "Args"
  missingArgText := GOOGLE_MISSING_ARG_TEXT
  parseOne := googleParseOne GOOGLE_SECTION_NAMES
  getBody := googleGetBody
  renderSection := googleRenderSection

/-- The Numpy dialect, assembled from `numpy.py` and `base.py`. -/
def numpyDialect : Dialect where
  sectionNames := NUMPY_SECTION_NAMES
  itemsSet := NUMPY_SECTION_NAMES_WITH_ITEMS
  argsName := "Parameters"
  missingArgText := NUMPY_MISSING_ARG_TEXT
  parseOne := numpyParseOne
  getBody := getSectionBodyBase
  renderSection := numpyRenderSection

/-! ## The inherit entry point -/

/-- Embeds `BaseDocstringInheritor.inherit` (`bases/inheritor.py`, lines 80-109):
when the parent docstring is `None` the method returns at once and the child
function's docstring is untouched; otherwise parent and child docstrings are
parsed, merged and re-rendered onto the child.  The similarity warnings are an
advisory side channel and do not affect the result.  The child's docstring
before and after is the function's return value.  The `_DOCSTRING_PARSER` /
`_DOCSTRING_RENDERER` classes live in `bases/parser.py` / `bases/renderer.py`,
which are not in the source tree; the shared scaffolding they inherit is the
one present in `base.py` (`_parse_sections` / `_render_docstring`), modelled
above, combined with each dialect's own `_parse_one_section` and
`_render_section` from `google.py` / `numpy.py`. -/
def inherit (d : Dialect) (parentDoc childDoc : Option String)
    (s : FullArgSpec) : Option String :=
  match parentDoc with
  | none => childDoc
  | some pd =>
    let parentSections := parseSections d (some pd)
    let childSections := parseSections d childDoc
    some (renderDocstring d
      (inheritSections d.itemsSet d.argsName d.sectionNames d.missingArgText
        parentSections childSections s))

/-- Modelled from the spec: §4.2/§8 claim that with an absent parent,
"merging is skipped" yet "the child's sections are left unchanged *except for
argument-section filtering*".  The orchestration that would perform such a
filtering on the absent-parent path (`bases/parser.py` / `bases/renderer.py`
plumbing) is not in the source tree; this definition follows the spec's words
— the child's own parsed sections with the argument section filtered against
the signature (placeholder for missing names, omitted when empty) — for
comparison with the source's `inherit`. -/
def mergeAbsentParentSpec (d : Dialect) (childDoc : Option String)
    (s : FullArgSpec) : Sections :=
  let cs := parseSections d childDoc
  let argsSection := filterArgsSection d.missingArgText
    (asItems (dgetD cs (some d.argsName) (.items []))) s
  if argsSection.isEmpty
  then dpop cs (some d.argsName)
  else dinsert cs (some d.argsName) (.items argsSection)

/-! ## The similarity-ratio configuration -/

/-- Embeds `bases/inheritor.py`, lines 42-46, modelled over rationals:

```
SIMILARITY_RATIO = float(os.environ.get("DOCSTRING_INHERITANCE_SIMILARITY_RATIO", 0.0))
SIMILARITY_RATIO = 0.9
if not (0 <= SIMILARITY_RATIO <= 1):
    raise ValueError("The docstring inheritance similarity ration must be in [0,1].")
```

The environment value (already converted from its string form; the conversion
itself can raise and is outside this model) is read and then immediately
shadowed by the literal `0.9`; only afterwards is the range checked. -/
def similarityRatioConfig (envValue : Option ℚ) : Except String ℚ :=
  let ratio : ℚ := envValue.getD 0
  let ratio : ℚ := 9 / 10
  if ¬ (0 ≤ ratio ∧ ratio ≤ 1) then
    .error "The docstring inheritance similarity ration must be in [0,1]."
  else .ok ratio

/-! ## Laws of the dict operations -/

theorem dget?_dinsert_self (d : List (κ × α)) (k : κ) (v : α) :
    dget? (dinsert d k v) k = some v := by
  induction d with
  | nil => simp [dinsert, dget?]
  | cons e d ih =>
    obtain ⟨k', v'⟩ := e
    by_cases h : k' = k <;> simp [dinsert, dget?, h, ih]

theorem dget?_dinsert_ne (d : List (κ × α)) (k : κ) (v : α) (q : κ) (h : q ≠ k) :
    dget? (dinsert d k v) q = dget? d q := by
  induction d with
  | nil => simp [dinsert, dget?, Ne.symm h]
  | cons e d ih =>
    obtain ⟨k', v'⟩ := e
    by_cases h1 : k' = k
    · subst h1
      simp [dinsert, dget?, Ne.symm h]
    · by_cases h2 : k' = q
      · subst h2
        simp [dinsert, dget?, h1]
      · simp [dinsert, dget?, h1, h2, ih]

theorem mem_dkeys_iff (d : List (κ × α)) (k : κ) :
    k ∈ dkeys d ↔ dcontains d k = true := by
  induction d with
  | nil => simp [dkeys, dcontains, dget?]
  | cons e d ih =>
    obtain ⟨k', v'⟩ := e
    by_cases h : k' = k
    · subst h
      simp [dkeys, dcontains, dget?]
    · have hc : dcontains ((k', v') :: d) k = dcontains d k := by
        simp [dcontains, dget?, h]
      rw [hc]
      simp only [dkeys, List.map_cons, List.mem_cons]
      rw [show List.map (fun x : κ × α => x.1) d = dkeys d from rfl]
      constructor
      · rintro (rfl | hm)
        · exact absurd rfl h
        · exact ih.mp hm
      · intro hc2
        exact Or.inr (ih.mpr hc2)

theorem dget?_eq_none_iff (d : List (κ × α)) (k : κ) :
    dget? d k = none ↔ k ∉ dkeys d := by
  rw [mem_dkeys_iff, dcontains]
  cases dget? d k <;> simp

theorem dkeys_dinsert (d : List (κ × α)) (k : κ) (v : α) :
    dkeys (dinsert d k v) =
      if dcontains d k then dkeys d else dkeys d ++ [k] := by
  induction d with
  | nil => simp [dinsert, dkeys, dcontains, dget?]
  | cons e d ih =>
    obtain ⟨k', v'⟩ := e
    by_cases h : k' = k
    · subst h
      simp [dinsert, dkeys, dcontains, dget?]
    · have hc : dcontains ((k', v') :: d) k = dcontains d k := by
        simp [dcontains, dget?, h]
      rw [hc]
      simp only [dinsert, if_neg h, dkeys, List.map_cons]
      rw [show List.map (fun x : κ × α => x.1) (dinsert d k v)
            = dkeys (dinsert d k v) from rfl, ih]
      by_cases hd : dcontains d k = true
      · simp [hd, dkeys]
      · simp [hd, dkeys]

theorem nodup_dkeys_dinsert (d : List (κ × α)) (k : κ) (v : α)
    (h : (dkeys d).Nodup) : (dkeys (dinsert d k v)).Nodup := by
  rw [dkeys_dinsert]
  by_cases hc : dcontains d k = true
  · simpa [hc]
  · have hk : k ∉ dkeys d := fun hm => hc ((mem_dkeys_iff d k).mp hm)
    simp [hc, List.nodup_append, h, hk]

theorem nodup_dkeys_dinsertMany {β : Type} (l : List β) (kf : β → κ) (vf : β → α)
    (t₀ : List (κ × α)) (h : (dkeys t₀).Nodup) :
    (dkeys (dinsertMany t₀ l kf vf)).Nodup := by
  induction l generalizing t₀ with
  | nil => simpa [dinsertMany]
  | cons e l ih =>
    simp only [dinsertMany, List.foldl_cons]
    exact ih _ (nodup_dkeys_dinsert _ _ _ h)

theorem dget?_dpop_ne (d : List (κ × α)) (k q : κ) (h : q ≠ k) :
    dget? (dpop d k) q = dget? d q := by
  induction d with
  | nil => simp [dpop]
  | cons e d ih =>
    obtain ⟨k', v'⟩ := e
    by_cases h1 : k' = k
    · subst h1
      simp [dpop, dget?, Ne.symm h]
    · by_cases h2 : k' = q
      · subst h2
        simp [dpop, dget?, h1]
      · simp [dpop, dget?, h1, h2, ih]

theorem dget?_dpop_self (d : List (κ × α)) (k : κ) (h : (dkeys d).Nodup) :
    dget? (dpop d k) k = none := by
  induction d with
  | nil => simp [dpop, dget?]
  | cons e d ih =>
    obtain ⟨k', v'⟩ := e
    simp only [dkeys, List.map_cons, List.nodup_cons] at h
    by_cases h1 : k' = k
    · subst h1
      simp only [dpop, if_pos rfl]
      rw [dget?_eq_none_iff]
      exact h.1
    · simp [dpop, dget?, h1, ih h.2]

theorem dget?_append (d₁ d₂ : List (κ × α)) (k : κ) :
    dget? (d₁ ++ d₂) k =
      match dget? d₁ k with
      | some v => some v
      | none => dget? d₂ k := by
  induction d₁ with
  | nil => simp [dget?]
  | cons e d ih =>
    obtain ⟨k', v'⟩ := e
    by_cases h : k' = k <;> simp [dget?, h, ih]

theorem dcontains_append (d₁ d₂ : List (κ × α)) (k : κ) :
    dcontains (d₁ ++ d₂) k = (dcontains d₁ k || dcontains d₂ k) := by
  rw [dcontains, dcontains, dcontains, dget?_append]
  cases dget? d₁ k <;> simp

theorem dinsert_of_not_contains (d : List (κ × α)) (k : κ) (v : α)
    (h : dcontains d k = false) : dinsert d k v = d ++ [(k, v)] := by
  induction d with
  | nil => simp [dinsert]
  | cons e d ih =>
    obtain ⟨k', v'⟩ := e
    simp only [dcontains, dget?] at h
    by_cases h1 : k' = k
    · simp [h1] at h
    · simp only [h1, if_false] at h
      simp [dinsert, h1, ih h]

theorem getLast?_cons_eq {β : Type} (a : β) (l : List β) :
    (a :: l).getLast? = some (l.getLast?.getD a) := by
  induction l generalizing a with
  | nil => rfl
  | cons b l ih => simp [List.getLast?_cons_cons, ih]

/-- The value found for `k` after a loop of insertions: the last element of
`l` whose key is `k` wins; if there is none the initial dict answers. -/
theorem dget?_dinsertMany {β : Type} (l : List β) (kf : β → κ) (vf : β → α)
    (t₀ : List (κ × α)) (k : κ) :
    dget? (dinsertMany t₀ l kf vf) k =
      match (l.filter (fun e => decide (kf e = k))).getLast? with
      | some e => some (vf e)
      | none => dget? t₀ k := by
  induction l generalizing t₀ with
  | nil => simp [dinsertMany]
  | cons e l ih =>
    rw [show dinsertMany t₀ (e :: l) kf vf
        = dinsertMany (dinsert t₀ (kf e) (vf e)) l kf vf from rfl, ih,
      List.filter_cons]
    by_cases h : kf e = k
    · rw [if_pos (by simp [h]), getLast?_cons_eq]
      cases hl : (l.filter (fun e => decide (kf e = k))).getLast? with
      | some e' => simp [hl]
      | none => simp [hl, h, dget?_dinsert_self]
    · rw [if_neg (by simp [h])]
      cases (l.filter (fun e => decide (kf e = k))).getLast? with
      | some e' => rfl
      | none => exact dget?_dinsert_ne _ _ _ _ (Ne.symm h)

/-- With unique keys, the entries whose key is `k` are exactly the entry
`dget?` finds. -/
theorem filter_key_eq_of_nodup (d : List (κ × α)) (k : κ)
    (h : (dkeys d).Nodup) :
    d.filter (fun e => decide (e.1 = k)) =
      match dget? d k with
      | some v => [(k, v)]
      | none => [] := by
  induction d with
  | nil => simp [dget?]
  | cons e d ih =>
    obtain ⟨k', v'⟩ := e
    simp only [dkeys, List.map_cons, List.nodup_cons] at h
    rw [List.filter_cons]
    by_cases h1 : k' = k
    · subst h1
      rw [if_pos (by simp)]
      have hf : d.filter (fun e => decide (e.1 = k')) = [] := by
        rw [List.filter_eq_nil_iff]
        intro e he
        simp only [decide_eq_true_eq]
        intro hke
        apply h.1
        have hm : e.1 ∈ List.map (fun x : κ × α => x.1) d :=
          List.mem_map_of_mem _ he
        rwa [hke] at hm
      simp [dget?, hf]
    · rw [if_neg (by simp [h1])]
      have hd : dget? ((k', v') :: d) k = dget? d k := by
        simp [dget?, h1]
      rw [hd]
      exact ih h.2

theorem dget?_dupdate (d₁ d₂ : List (κ × α)) (k : κ)
    (h₂ : (dkeys d₂).Nodup) :
    dget? (dupdate d₁ d₂) k = (dget? d₂ k).elim (dget? d₁ k) some := by
  rw [dupdate, dget?_dinsertMany, filter_key_eq_of_nodup d₂ k h₂]
  cases dget? d₂ k <;> simp

theorem nodup_dkeys_filter (d : List (κ × α)) (f : κ × α → Bool)
    (h : (dkeys d).Nodup) : (dkeys (d.filter f)).Nodup := by
  have hs : (List.map (fun x : κ × α => x.1) (d.filter f)).Sublist
      (List.map (fun x : κ × α => x.1) d) :=
    (List.filter_sublist d).map _
  exact List.Nodup.sublist hs h

theorem dkeys_dupdate (d₁ d₂ : List (κ × α)) (h₂ : (dkeys d₂).Nodup) :
    dkeys (dupdate d₁ d₂) =
      dkeys d₁ ++ (dkeys d₂).filter (fun a => decide (a ∉ dkeys d₁)) := by
  induction d₂ generalizing d₁ with
  | nil => simp [dupdate, dinsertMany, dkeys]
  | cons e d₂ ih =>
    obtain ⟨k, v⟩ := e
    simp only [dkeys, List.map_cons, List.nodup_cons] at h₂
    rw [show dupdate d₁ ((k, v) :: d₂) = dupdate (dinsert d₁ k v) d₂ from rfl,
      ih _ h₂.2]
    by_cases hc : dcontains d₁ k = true
    · have hkeys : dkeys (dinsert d₁ k v) = dkeys d₁ := by
        rw [dkeys_dinsert, if_pos hc]
      simp only [hkeys]
      have hk : k ∈ dkeys d₁ := (mem_dkeys_iff _ _).mpr hc
      rw [show dkeys ((k, v) :: d₂) = k :: dkeys d₂ from rfl, List.filter_cons,
        if_neg (by simp [hk])]
    · have hkeys : dkeys (dinsert d₁ k v) = dkeys d₁ ++ [k] := by
        rw [dkeys_dinsert, if_neg hc]
      simp only [hkeys]
      have hk : k ∉ dkeys d₁ := fun hm => hc ((mem_dkeys_iff _ _).mp hm)
      have hcong : (dkeys d₂).filter (fun a => decide (a ∉ dkeys d₁ ++ [k]))
          = (dkeys d₂).filter (fun a => decide (a ∉ dkeys d₁)) := by
        apply List.filter_congr
        intro a ha
        have hak : a ≠ k := fun hh => h₂.1 (hh ▸ ha)
        simp [hak]
      rw [hcong, show dkeys ((k, v) :: d₂) = k :: dkeys d₂ from rfl,
        List.filter_cons, if_pos (by simp [hk])]
      simp [List.append_assoc]

/-- Embeds `parent_section_names - child_section_names` filtering, looked up. -/
theorem dget?_filter_not_contains (p c : List (κ × α)) (k : κ) :
    dget? (p.filter (fun e => ¬ dcontains c e.1)) k
      = if dcontains c k then none else dget? p k := by
  induction p with
  | nil => simp [dget?]
  | cons e p ih =>
    obtain ⟨k', v'⟩ := e
    rw [List.filter_cons]
    by_cases hc : dcontains c k' = true
    · rw [if_neg (by simp [hc]), ih]
      by_cases hk : k' = k
      · subst hk
        rw [if_pos hc, if_pos hc]
      · by_cases hck : dcontains c k = true
        · rw [if_pos hck, if_pos hck]
        · rw [if_neg hck, if_neg hck]
          simp only [dget?, if_neg hk]
    · rw [if_pos (by simp [hc])]
      by_cases hk : k' = k
      · subst hk
        rw [if_neg hc]
        simp [dget?]
      · simp only [dget?, if_neg hk]
        rw [ih]

/-- The common-item-sections filtering, looked up. -/
theorem dget?_filter_common (iset : List String) (p c : Sections)
    (k : Option String) :
    dget? (p.filter (fun e => dcontains c e.1 && inItemsSet iset e.1)) k
      = if dcontains c k && inItemsSet iset k then dget? p k else none := by
  induction p with
  | nil => simp [dget?]
  | cons e p ih =>
    obtain ⟨k', v'⟩ := e
    rw [List.filter_cons]
    by_cases hcc : (dcontains c k' && inItemsSet iset k') = true
    · rw [if_pos hcc]
      simp only [dget?]
      rw [ih]
      by_cases hk : k' = k
      · subst hk
        rw [if_pos rfl, if_pos hcc, if_pos rfl]
      · rw [if_neg hk]
        by_cases hck : (dcontains c k && inItemsSet iset k) = true
        · rw [if_pos hck, if_pos hck, if_neg hk]
        · rw [if_neg hck, if_neg hck]
    · rw [if_neg hcc, ih]
      by_cases hk : k' = k
      · subst hk
        rw [if_neg hcc, if_neg hcc]
      · by_cases hck : (dcontains c k && inItemsSet iset k) = true
        · rw [if_pos hck, if_pos hck]
          simp only [dget?, if_neg hk]
        · rw [if_neg hck, if_neg hck]

/-- Keys of `tempSections` stay duplicate-free when the parent's keys are. -/
theorem nodup_dkeys_tempSections (iset : List String) (p c : Sections)
    (hp : (dkeys p).Nodup) : (dkeys (tempSections iset p c)).Nodup := by
  unfold tempSections
  exact nodup_dkeys_dinsertMany _ _ _ _
    (nodup_dkeys_dinsertMany _ _ _ _ (nodup_dkeys_filter _ _ hp))

/-- Lookup in `temp_sections` after the three merge loops: child wins for a
common key, unless the key is a common item section, in which case the value is
the parent's item mapping updated by the child's. -/
theorem dget?_tempSections (iset : List String) (p c : Sections)
    (k : Option String) (hp : (dkeys p).Nodup) (hc : (dkeys c).Nodup) :
    dget? (tempSections iset p c) k =
      match dget? p k, dget? c k with
      | some vp, some vc =>
          if inItemsSet iset k
          then some (.items (dupdate (asItems vp) (asItems vc)))
          else some vc
      | some vp, none => some vp
      | none, some vc => some vc
      | none, none => none := by
  unfold tempSections
  rw [dget?_dinsertMany]
  rw [filter_key_eq_of_nodup _ k
    (nodup_dkeys_filter _ (fun e => dcontains c e.1 && inItemsSet iset e.1) hp)]
  rw [dget?_filter_common, dget?_dinsertMany, filter_key_eq_of_nodup _ k hc,
    dget?_filter_not_contains]
  rcases hpk : dget? p k with _ | vp <;> rcases hck : dget? c k with _ | vc
  · simp [dcontains, hpk, hck]
  · simp [dcontains, hpk, hck]
  · simp [dcontains, hpk, hck]
  · by_cases hi : inItemsSet iset k = true <;>
      simp [dcontains, hpk, hck, hi, dgetD]

/-! ### The args-section filter -/

/-- The fold of `_filter_args_section` splits into the dict being built and
the warning list. -/
theorem filterArgsFold_eq (m : String) (items : List (String × String))
    (l : List String) (d₀ : List (String × String)) (w₀ : List String) :
    l.foldl
      (fun acc arg => (dinsert acc.1 arg (dgetD items arg m), acc.2 ++ [arg]))
      (d₀, w₀)
      = (dinsertMany d₀ l id (fun arg => dgetD items arg m), w₀ ++ l) := by
  induction l generalizing d₀ w₀ with
  | nil => simp [dinsertMany]
  | cons a l ih =>
    rw [List.foldl_cons, ih]
    simp [dinsertMany]

/-- The warning loop of `_filter_args_section` warns for *every*
signature-derived argument name, documented or not. -/
theorem filterArgsWarnings_eq (m : String) (items : List (String × String))
    (s : FullArgSpec) :
    (filterArgsSectionWithWarnings m items s).2 = allArgs s := by
  rw [filterArgsSectionWithWarnings, filterArgsFold_eq]
  simp

theorem dinsertMany_fresh_eq_map {β : Type} (l : List β) (kf : β → κ)
    (vf : β → α) (d₀ : List (κ × α)) (hnd : (l.map kf).Nodup)
    (hfresh : ∀ e ∈ l, dcontains d₀ (kf e) = false) :
    dinsertMany d₀ l kf vf = d₀ ++ l.map (fun e => (kf e, vf e)) := by
  induction l generalizing d₀ with
  | nil => simp [dinsertMany]
  | cons e l ih =>
    simp only [List.map_cons, List.nodup_cons] at hnd
    rw [show dinsertMany d₀ (e :: l) kf vf
        = dinsertMany (dinsert d₀ (kf e) (vf e)) l kf vf from rfl]
    rw [dinsert_of_not_contains _ _ _ (hfresh e (List.mem_cons_self e l))]
    have hfresh' : ∀ e' ∈ l, dcontains (d₀ ++ [(kf e, vf e)]) (kf e') = false := by
      intro e' he'
      have h1 : dcontains d₀ (kf e') = false :=
        hfresh e' (List.mem_cons_of_mem _ he')
      have h2 : kf e' ≠ kf e := fun hh => hnd.1 (hh ▸ List.mem_map_of_mem kf he')
      rw [dcontains_append, h1]
      simp [dcontains, dget?, Ne.symm h2]
    rw [ih _ hnd.2 hfresh']
    simp [List.append_assoc]

/-- With duplicate-free signature names, `_filter_args_section` returns
exactly one entry per signature-derived name, in signature order, defaulting
absent descriptions to the missing-description text. -/
theorem filterArgsSection_eq_map (m : String) (items : List (String × String))
    (s : FullArgSpec) (h : (allArgs s).Nodup) :
    filterArgsSection m items s
      = (allArgs s).map (fun a => (a, dgetD items a m)) := by
  rw [filterArgsSection, filterArgsSectionWithWarnings, filterArgsFold_eq]
  have := dinsertMany_fresh_eq_map (allArgs s) id
    (fun arg => dgetD items arg m) [] (by simpa using h)
    (by intro e _; simp [dcontains, dget?])
  simpa using this

/-! ### The reorder step -/

theorem dget?_reorderPart1 (t : Sections) (names : List (Option String))
    (k : Option String) :
    dget? (names.filterMap (fun n => (dget? t n).map (fun v => (n, v)))) k
      = if k ∈ names then dget? t k else none := by
  induction names with
  | nil => simp [dget?]
  | cons n ns ih =>
    rw [List.filterMap_cons]
    cases hn : dget? t n with
    | none =>
      simp only [hn, Option.map_none']
      rw [ih]
      by_cases hk : k ∈ ns
      · rw [if_pos hk, if_pos (List.mem_cons_of_mem n hk)]
      · rw [if_neg hk]
        by_cases hkn : k = n
        · subst hkn
          rw [if_pos (List.mem_cons_self k ns), hn]
        · rw [if_neg (by simp [hkn, hk])]
    | some v =>
      simp only [hn, Option.map_some']
      simp only [dget?]
      rw [ih]
      by_cases hkn : n = k
      · subst hkn
        rw [if_pos rfl, if_pos (List.mem_cons_self n ns), hn]
      · rw [if_neg hkn]
        by_cases hk : k ∈ ns
        · rw [if_pos hk, if_pos (List.mem_cons_of_mem n hk)]
        · rw [if_neg hk, if_neg (by
            intro hm
            rcases List.mem_cons.mp hm with rfl | hm2
            · exact hkn rfl
            · exact hk hm2)]

theorem dget?_reorderPart2 (t : Sections) (names : List (Option String))
    (k : Option String) :
    dget? (t.filter (fun e => decide (e.1 ∉ names))) k
      = if k ∈ names then none else dget? t k := by
  induction t with
  | nil => simp [dget?]
  | cons e t ih =>
    obtain ⟨k', v'⟩ := e
    rw [List.filter_cons]
    by_cases hn : k' ∈ names
    · rw [if_neg (by simp [hn]), ih]
      by_cases hk : k' = k
      · subst hk
        rw [if_pos hn, if_pos hn]
      · by_cases hkn : k ∈ names
        · rw [if_pos hkn, if_pos hkn]
        · rw [if_neg hkn, if_neg hkn]
          simp only [dget?, if_neg hk]
    · rw [if_pos (by simp [hn])]
      by_cases hk : k' = k
      · subst hk
        rw [if_neg hn]
        simp [dget?]
      · simp only [dget?, if_neg hk]
        rw [ih]

/-- The reorder step never changes what a key maps to. -/
theorem dget?_reorderSections (names : List (Option String)) (t : Sections)
    (k : Option String) :
    dget? (reorderSections names t) k = dget? t k := by
  rw [reorderSections, dget?_append, dget?_reorderPart1, dget?_reorderPart2]
  by_cases hk : k ∈ names
  · rw [if_pos hk, if_pos hk]
    cases dget? t k <;> rfl
  · rw [if_neg hk, if_neg hk]

theorem dkeys_reorderPart1 (t : Sections) (names : List (Option String)) :
    dkeys (names.filterMap (fun n => (dget? t n).map (fun v => (n, v))))
      = names.filter (fun n => dcontains t n) := by
  induction names with
  | nil => simp [dkeys]
  | cons n ns ih =>
    simp only [List.filterMap_cons, List.filter_cons]
    simp only [dcontains, dkeys] at ih ⊢
    cases hn : dget? t n with
    | none => simpa [hn] using ih
    | some v => simpa [hn] using ih

theorem dkeys_reorderPart2 (t : Sections) (names : List (Option String)) :
    dkeys (t.filter (fun e => decide (e.1 ∉ names)))
      = (dkeys t).filter (fun n => decide (n ∉ names)) := by
  induction t with
  | nil => simp [dkeys]
  | cons e t ih =>
    obtain ⟨k', v'⟩ := e
    simp only [List.filter_cons]
    simp only [dkeys] at ih ⊢
    by_cases hn : k' ∈ names
    · simpa [hn] using ih
    · simpa [hn] using ih

theorem dkeys_reorderSections (names : List (Option String)) (t : Sections) :
    dkeys (reorderSections names t)
      = names.filter (fun n => dcontains t n)
        ++ (dkeys t).filter (fun n => decide (n ∉ names)) := by
  rw [reorderSections, dkeys, List.map_append]
  rw [show List.map (fun x : Option String × SectionValue => x.1)
      (names.filterMap (fun n => (dget? t n).map (fun v => (n, v))))
    = dkeys (names.filterMap (fun n => (dget? t n).map (fun v => (n, v))))
    from rfl]
  rw [show List.map (fun x : Option String × SectionValue => x.1)
      (t.filter (fun e => decide (e.1 ∉ names)))
    = dkeys (t.filter (fun e => decide (e.1 ∉ names))) from rfl]
  rw [dkeys_reorderPart1, dkeys_reorderPart2]

/-! ## Claims -/

/-- C1. For every parent and child Section Model and every signature (with
duplicate-free section keys and signature-derived names, as Python
guarantees), the arguments item section of the merge result, when the
signature yields at least one name, contains exactly one entry per
signature-derived name — positional parameters with `self` dropped, then the
`*`-prefixed variadic-positional name if present, then keyword-only names,
then the `**`-prefixed variadic-keyword name — in exactly that order; a name
absent from the merged parent/child item mapping maps to the fixed
missing-description text; and when the signature yields no name the arguments
key is omitted from the merge result. -/
theorem c1_args_section_exactly_signature
    (itemsSet : List String) (argsName : String)
    (sectionNames : List (Option String)) (missingArgText : String)
    (p c : Sections) (s : FullArgSpec)
    (hp : (dkeys p).Nodup) (ha : (allArgs s).Nodup) :
    (allArgs s ≠ [] →
      dget? (inheritSections itemsSet argsName sectionNames missingArgText p c s)
          (some argsName)
        = some (.items ((allArgs s).map
            (fun a => (a, dgetD (mergedArgsItems itemsSet argsName p c) a
              missingArgText)))))
    ∧ (allArgs s = [] →
      dget? (inheritSections itemsSet argsName sectionNames missingArgText p c s)
          (some argsName) = none) := by
  have hfil := filterArgsSection_eq_map missingArgText
    (mergedArgsItems itemsSet argsName p c) s ha
  constructor
  · intro hne
    simp only [inheritSections]
    rw [dget?_reorderSections, hfil]
    rcases hA : allArgs s with _ | ⟨a, rest⟩
    · exact absurd hA hne
    · rw [if_neg (by simp), dget?_dinsert_self]
  · intro hA
    simp only [inheritSections]
    rw [dget?_reorderSections, hfil, hA, List.map_nil]
    rw [if_pos (show (([] : List (String × String)).isEmpty) = true from rfl)]
    exact dget?_dpop_self _ _ (nodup_dkeys_tempSections _ _ _ hp)

/-- Witness for C1: the spec's own §8 example — parent Args `{a, b}`, child
Args `{c}`, signature `(self, b, c)` — yields exactly `{b: " B.", c: " C."}`. -/
theorem c1_args_section_exactly_signature_witness :
    dget? (inheritSections GOOGLE_SECTION_NAMES_WITH_ITEMS "Args"
        GOOGLE_SECTION_NAMES GOOGLE_MISSING_ARG_TEXT
        [(some "Args", .items [("a", ": A."), ("b", ": B.")])]
        [(some "Args", .items [("c", ": C.")])]
        ⟨["self", "b", "c"], none, [], none⟩)
        (some "Args")
      = some (.items [("b", ": B."), ("c", ": C.")]) := by
  have h := c1_args_section_exactly_signature GOOGLE_SECTION_NAMES_WITH_ITEMS
    "Args" GOOGLE_SECTION_NAMES GOOGLE_MISSING_ARG_TEXT
    [(some "Args", .items [("a", ": A."), ("b", ": B.")])]
    [(some "Args", .items [("c", ": C.")])]
    ⟨["self", "b", "c"], none, [], none⟩ (by decide) (by decide)
  exact (h.1 (by decide)).trans (by decide)

/-- C2, counterexample. The designated arguments section is *not* simply the
parent's item mapping updated by the child's: with `Args` present in both
models and a signature yielding no argument name, the merge removes the
section entirely instead of mapping it to the overlay `{a: A, b: B}`. -/
theorem c2_common_section_counterexample :
    dget? (inheritSections GOOGLE_SECTION_NAMES_WITH_ITEMS "Args"
        GOOGLE_SECTION_NAMES GOOGLE_MISSING_ARG_TEXT
        [(some "Args", .items [("a", ": A.")])]
        [(some "Args", .items [("b", ": B.")])]
        ⟨[], none, [], none⟩) (some "Args")
      ≠ some (.items (dupdate [("a", ": A.")] [("b", ": B.")])) := by
  decide

/-- C2, amended. For every section key present in both models *other than the
designated arguments section key* (which is additionally filtered and
reordered by the signature): a prose-section key maps to the child's value
unchanged, and an item-section key maps to the parent's item mapping updated
by the child's — child descriptions override same-named parent entries,
entries unique to either side are kept, and the iteration order is the
parent's item order followed by the child-only item names in child order. -/
theorem c2_common_section_merge
    (itemsSet : List String) (argsName : String)
    (sectionNames : List (Option String)) (missingArgText : String)
    (p c : Sections) (s : FullArgSpec) (k : Option String)
    (vp vc : SectionValue)
    (hp : (dkeys p).Nodup) (hc : (dkeys c).Nodup)
    (hk : k ≠ some argsName)
    (hkp : dget? p k = some vp) (hkc : dget? c k = some vc) :
    (inItemsSet itemsSet k = false →
      dget? (inheritSections itemsSet argsName sectionNames missingArgText p c s) k
        = some vc)
    ∧ (∀ pi ci, vp = .items pi → vc = .items ci →
        inItemsSet itemsSet k = true →
        dget? (inheritSections itemsSet argsName sectionNames missingArgText p c s) k
          = some (.items (dupdate pi ci))
        ∧ ((dkeys ci).Nodup →
            dkeys (dupdate pi ci)
              = dkeys pi ++ (dkeys ci).filter (fun a => decide (a ∉ dkeys pi))
            ∧ ∀ a, dget? (dupdate pi ci) a
                = (dget? ci a).elim (dget? pi a) some)) := by
  have hstep :
      dget? (inheritSections itemsSet argsName sectionNames missingArgText p c s) k
        = dget? (tempSections itemsSet p c) k := by
    simp only [inheritSections]
    rw [dget?_reorderSections]
    by_cases hE : (filterArgsSection missingArgText
        (mergedArgsItems itemsSet argsName p c) s).isEmpty = true
    · rw [if_pos hE, dget?_dpop_ne _ _ _ hk]
    · rw [if_neg hE, dget?_dinsert_ne _ _ _ _ hk]
  rw [hstep, dget?_tempSections itemsSet p c k hp hc, hkp, hkc]
  constructor
  · intro hitems
    rw [hitems]
    simp
  · intro pi ci hvp hvc hitems
    subst hvp
    subst hvc
    rw [hitems]
    refine ⟨by simp [asItems], fun hci => ⟨dkeys_dupdate pi ci hci, ?_⟩⟩
    intro a
    exact dget?_dupdate pi ci a hci

/-- Witness for C2 at a concrete input: `Attributes` common to both models in
the Numpy dialect merges to the parent mapping updated by the child's, with
parent order first and the child-only name appended. -/
theorem c2_common_section_merge_witness :
    dget? (inheritSections NUMPY_SECTION_NAMES_WITH_ITEMS "Parameters"
        NUMPY_SECTION_NAMES NUMPY_MISSING_ARG_TEXT
        [(some "Attributes", .items [("x", "X"), ("y", "Y")])]
        [(some "Attributes", .items [("y", "Y2"), ("z", "Z")])]
        ⟨[], none, [], none⟩) (some "Attributes")
      = some (.items [("x", "X"), ("y", "Y2"), ("z", "Z")]) := by
  have h := c2_common_section_merge NUMPY_SECTION_NAMES_WITH_ITEMS "Parameters"
    NUMPY_SECTION_NAMES NUMPY_MISSING_ARG_TEXT
    [(some "Attributes", .items [("x", "X"), ("y", "Y")])]
    [(some "Attributes", .items [("y", "Y2"), ("z", "Z")])]
    ⟨[], none, [], none⟩ (some "Attributes")
    (.items [("x", "X"), ("y", "Y")]) (.items [("y", "Y2"), ("z", "Z")])
    (by decide) (by decide) (by decide) (by decide) (by decide)
  exact ((h.2 [("x", "X"), ("y", "Y")] [("y", "Y2"), ("z", "Z")] rfl rfl
    (by decide)).1).trans (by decide)

/-- C3, counterexample. The parse/render round trip is not the identity on
rendered text for every well-formed Section Model, and the spec's Numpy
example does not render back to the identical three-line block: rendering a
model without a summary prefixes a blank line, and a prose body containing an
underline-like line (`====`) re-parses as an extra section, so
`render (parse (render M)) ≠ render M` for
`M = {Notes: "A\n\nB\n===="}`. -/
theorem c3_roundtrip_counterexample :
    renderDocstring numpyDialect (parseSections numpyDialect
        (some (renderDocstring numpyDialect
          [(some "Notes", .prose "A\n\nB\n====")])))
      ≠ renderDocstring numpyDialect [(some "Notes", .prose "A\n\nB\n====")]
    ∧ renderDocstring numpyDialect [(some "Name", .prose "Body line.")]
      ≠ "Name\n----\nBody line." := by
  constructor
  · decide
  · decide

/-- C3, amended. The round trip holds at the spec's example models rather
than universally: the Numpy text `"Name\n----\nBody line."` parses to
`{Name: "Body line."}`; rendering that model yields the same three lines
preceded by one blank line (the renderer prefixes a blank line when no
summary is present); re-parsing and re-rendering that output reproduces it
exactly, and likewise for a Google item-section model. -/
theorem c3_roundtrip_examples :
    parseSections numpyDialect (some "Name\n----\nBody line.")
      = [(some "Name", .prose "Body line.")]
    ∧ renderDocstring numpyDialect [(some "Name", .prose "Body line.")]
      = "\nName\n----\nBody line."
    ∧ renderDocstring numpyDialect (parseSections numpyDialect
        (some (renderDocstring numpyDialect
          [(some "Name", .prose "Body line.")])))
      = renderDocstring numpyDialect [(some "Name", .prose "Body line.")]
    ∧ renderDocstring googleDialect (parseSections googleDialect
        (some (renderDocstring googleDialect
          [(some "Args", .items [("a", ": Desc.")])])))
      = renderDocstring googleDialect [(some "Args", .items [("a", ": Desc.")])] := by
  refine ⟨by decide, by decide, by decide, by decide⟩

/-- C4, counterexample. With an absent parent the child's docstring is
returned completely untouched — in particular its arguments section is *not*
filtered against the signature, contrary to the claim's "unchanged except for
argument-section filtering": for `def f(b)` and a child documenting only `a`,
the claimed behaviour replaces the Args entries, the code changes nothing. -/
theorem c4_missing_parent_counterexample :
    inherit googleDialect none (some "Summary.\nArgs:\n  a: A.")
        ⟨["b"], none, [], none⟩
      = some "Summary.\nArgs:\n  a: A."
    ∧ parseSections googleDialect
        (inherit googleDialect none (some "Summary.\nArgs:\n  a: A.")
          ⟨["b"], none, [], none⟩)
      ≠ mergeAbsentParentSpec googleDialect (some "Summary.\nArgs:\n  a: A.")
          ⟨["b"], none, [], none⟩ := by
  constructor
  · rfl
  · decide

/-- C4, amended. When the parent docstring is absent (`None`, not merely
empty), `inherit` returns at once: the child's docstring is the output,
completely unchanged — no merging, no argument-section filtering, and no
re-rendering take place. -/
theorem c4_missing_parent_skip (d : Dialect) (childDoc : Option String)
    (s : FullArgSpec) :
    inherit d none childDoc s = childDoc :=
  rfl

/-- C5, counterexample. A key absent from both models can still appear in the
merge result: with empty parent and child models and signature `(arg)`, the
merge *creates* the `Args` section from the signature, every entry carrying
the missing-description text. -/
theorem c5_args_created_counterexample :
    dget? (inheritSections GOOGLE_SECTION_NAMES_WITH_ITEMS "Args"
        GOOGLE_SECTION_NAMES GOOGLE_MISSING_ARG_TEXT [] []
        ⟨["arg"], none, [], none⟩) (some "Args") ≠ none := by
  decide

/-- C5, amended. A key absent from both the parent and the child model is
absent from the merge result, *except* for the designated arguments section
key, which the current `bases/inheritor.py` merge creates from the signature
whenever the signature yields at least one argument name; when the signature
yields none, the arguments key too is absent. -/
theorem c5_absent_key_absent
    (itemsSet : List String) (argsName : String)
    (sectionNames : List (Option String)) (missingArgText : String)
    (p c : Sections) (s : FullArgSpec) (k : Option String)
    (hp : (dkeys p).Nodup) (hc : (dkeys c).Nodup)
    (hkp : dget? p k = none) (hkc : dget? c k = none)
    (h : k ≠ some argsName ∨ allArgs s = []) :
    dget? (inheritSections itemsSet argsName sectionNames missingArgText p c s) k
      = none := by
  simp only [inheritSections]
  rw [dget?_reorderSections]
  by_cases hk : k = some argsName
  · rcases h with h | hA
    · exact absurd hk h
    · have hfe : filterArgsSection missingArgText
          (mergedArgsItems itemsSet argsName p c) s = [] := by
        rw [filterArgsSection, filterArgsSectionWithWarnings, hA]
        rfl
      rw [hfe, if_pos (show (([] : List (String × String)).isEmpty) = true
        from rfl)]
      subst hk
      exact dget?_dpop_self _ _ (nodup_dkeys_tempSections _ _ _ hp)
  · have htmp : dget? (tempSections itemsSet p c) k = none := by
      rw [dget?_tempSections itemsSet p c k hp hc, hkp, hkc]
    by_cases hE : (filterArgsSection missingArgText
        (mergedArgsItems itemsSet argsName p c) s).isEmpty = true
    · rw [if_pos hE, dget?_dpop_ne _ _ _ hk, htmp]
    · rw [if_neg hE, dget?_dinsert_ne _ _ _ _ hk, htmp]

/-- Witness for C5: the key `Notes`, absent from a one-section parent and an
empty child, is absent from the merge result. -/
theorem c5_absent_key_absent_witness :
    dget? (inheritSections GOOGLE_SECTION_NAMES_WITH_ITEMS "Args"
        GOOGLE_SECTION_NAMES GOOGLE_MISSING_ARG_TEXT
        [(some "Returns", .prose "R")] [] ⟨["a"], none, [], none⟩)
        (some "Notes") = none :=
  c5_absent_key_absent GOOGLE_SECTION_NAMES_WITH_ITEMS "Args"
    GOOGLE_SECTION_NAMES GOOGLE_MISSING_ARG_TEXT
    [(some "Returns", .prose "R")] [] ⟨["a"], none, [], none⟩ (some "Notes")
    (by decide) (by decide) (by decide) (by decide) (Or.inl (by decide))

/-- Splitting the keys of a reordered section mapping: the canonical names
that are present come first, in canonical order, and every non-canonical key
comes after. -/
theorem dkeys_reorder_split (names : List (Option String)) (t : Sections) :
    dkeys (reorderSections names t)
      = names.filter (fun n => decide (n ∈ dkeys (reorderSections names t)))
        ++ (dkeys (reorderSections names t)).filter
            (fun n => decide (n ∉ names)) := by
  have hks := dkeys_reorderSections names t
  rw [hks]
  have h1 : names.filter
      (fun n => decide (n ∈ names.filter (fun n => dcontains t n)
        ++ (dkeys t).filter (fun n => decide (n ∉ names))))
      = names.filter (fun n => dcontains t n) := by
    apply List.filter_congr
    intro n hn
    by_cases hct : dcontains t n = true
    · have hmem : n ∈ names.filter (fun n => dcontains t n) :=
        List.mem_filter.mpr ⟨hn, hct⟩
      simp [List.mem_append, hmem, hct]
    · have hA : n ∉ names.filter (fun n => dcontains t n) :=
        fun hm => hct (List.mem_filter.mp hm).2
      have hB : n ∉ (dkeys t).filter (fun n => decide (n ∉ names)) := by
        intro hm
        have := (List.mem_filter.mp hm).2
        simp only [decide_eq_true_eq] at this
        exact this hn
      simp [List.mem_append, hA, hB, hct]
      exact fun _ => hn
  have h2 : (names.filter (fun n => dcontains t n)
        ++ (dkeys t).filter (fun n => decide (n ∉ names))).filter
          (fun n => decide (n ∉ names))
      = (dkeys t).filter (fun n => decide (n ∉ names)) := by
    rw [List.filter_append]
    have hA0 : (names.filter (fun n => dcontains t n)).filter
        (fun n => decide (n ∉ names)) = [] := by
      rw [List.filter_eq_nil_iff]
      intro n hn
      have hmem : n ∈ names := (List.mem_filter.mp hn).1
      simp [hmem]
    have hB0 : ((dkeys t).filter (fun n => decide (n ∉ names))).filter
        (fun n => decide (n ∉ names))
        = (dkeys t).filter (fun n => decide (n ∉ names)) := by
      apply List.filter_eq_self.mpr
      intro n hn
      exact (List.mem_filter.mp hn).2
    rw [hA0, hB0, List.nil_append]
  rw [h1, h2]

/-- C6. For every merge result, iterating the keys yields first every
canonical section key that is present — summary, Args/Parameters, Returns,
Yields, Receives, Other Parameters, Attributes, Methods, Raises, Warns,
Warnings, See Also, Notes, References, Examples — in exactly that fixed
order, and only afterwards every non-canonical key, in both dialects. -/
theorem c6_canonical_order (p c : Sections) (s : FullArgSpec) :
    (dkeys (inheritSections GOOGLE_SECTION_NAMES_WITH_ITEMS "Args"
        GOOGLE_SECTION_NAMES GOOGLE_MISSING_ARG_TEXT p c s)
      = GOOGLE_SECTION_NAMES.filter
          (fun n => decide (n ∈ dkeys (inheritSections
            GOOGLE_SECTION_NAMES_WITH_ITEMS "Args" GOOGLE_SECTION_NAMES
            GOOGLE_MISSING_ARG_TEXT p c s)))
        ++ (dkeys (inheritSections GOOGLE_SECTION_NAMES_WITH_ITEMS "Args"
            GOOGLE_SECTION_NAMES GOOGLE_MISSING_ARG_TEXT p c s)).filter
            (fun n => decide (n ∉ GOOGLE_SECTION_NAMES)))
    ∧ (dkeys (inheritSections NUMPY_SECTION_NAMES_WITH_ITEMS "Parameters"
        NUMPY_SECTION_NAMES NUMPY_MISSING_ARG_TEXT p c s)
      = NUMPY_SECTION_NAMES.filter
          (fun n => decide (n ∈ dkeys (inheritSections
            NUMPY_SECTION_NAMES_WITH_ITEMS "Parameters" NUMPY_SECTION_NAMES
            NUMPY_MISSING_ARG_TEXT p c s)))
        ++ (dkeys (inheritSections NUMPY_SECTION_NAMES_WITH_ITEMS "Parameters"
            NUMPY_SECTION_NAMES NUMPY_MISSING_ARG_TEXT p c s)).filter
            (fun n => decide (n ∉ NUMPY_SECTION_NAMES))) :=
  ⟨dkeys_reorder_split GOOGLE_SECTION_NAMES _,
   dkeys_reorder_split NUMPY_SECTION_NAMES _⟩

/-- C7. In this revision the missing-argument-description warning is emitted
for *every* signature-derived argument name, not only for names the merged
mapping lacks: the warning list is always the whole argument list, and in
particular the documented argument `arg` is still warned about.  (The
warning's own message text — "the docstring for the argument ... is missing"
— and the repo's `test_no_warning_for_missing_arg` expect the guard the claim
describes.) -/
theorem c7_missing_arg_warning_unconditional :
    (∀ missingArgText sectionItems s,
      (filterArgsSectionWithWarnings missingArgText sectionItems s).2 = allArgs s)
    ∧ (filterArgsSectionWithWarnings GOOGLE_MISSING_ARG_TEXT
        [("arg", ": documented.")] ⟨["arg"], none, [], none⟩).2 = ["arg"]
    ∧ dcontains [("arg", ": documented.")] "arg" = true :=
  ⟨fun m items s => filterArgsWarnings_eq m items s, by decide, by decide⟩

/-- C8, counterexample. In the Google dialect an unindented line ending with
a colon followed by a line indented by two spaces does *not* start a section
when its name is unrecognized: `Stuff:` stays inside the summary prose and no
`Stuff` key is produced. -/
theorem c8_google_arbitrary_header_counterexample :
    dcontains (parseSections googleDialect
        (some "Summary.\nStuff:\n  body.")) (some "Stuff") = false
    ∧ parseSections googleDialect (some "Summary.\nStuff:\n  body.")
        = [(none, .prose "Summary.\nStuff:\n  body.")] := by
  constructor
  · decide
  · decide

/-- C8, amended. Unrecognized section names are detected and preserved only
in the Numpy dialect: any properly underlined line is a section header there,
whatever the name (the detection condition never consults the section-name
list).  In the Google dialect the text before the colon must additionally be
one of the dialect's fixed section names; an unrecognized Google header is
kept as ordinary body text, while a recognized one is parsed as a section. -/
theorem c8_arbitrary_header_dialects :
    (∀ line1 line2r acc, line2r.length ≥ 3 →
      line2r.all (· = '-') = true →
      (List.replicate (rstripWs line1).length '-').isPrefixOf line2r = true →
      numpyParseOne line1 line2r acc
        = some (rstripWs line1, getSectionBodyBase acc))
    ∧ parseSections numpyDialect (some "Weird\n-----\nBody.")
        = [(some "Weird", .prose "Body.")]
    ∧ parseSections googleDialect (some "Summary.\nStuff:\n  body.")
        = [(none, .prose "Summary.\nStuff:\n  body.")]
    ∧ parseSections googleDialect (some "Summary.\nArgs:\n  a: A.")
        = [(none, .prose "Summary."), (some "Args", .items [("a", ": A.")])] := by
  refine ⟨?_, by decide, by decide, by decide⟩
  intro line1 line2r acc h1 h2 h3
  unfold numpyParseOne
  rw [if_pos ⟨h1, Or.inl h2⟩, if_pos (Or.inl h3)]

/-- Witness for C8: an arbitrary, unrecognized name over a `-` underline is
detected by the Numpy header rule. -/
theorem c8_arbitrary_header_dialects_witness :
    numpyParseOne "Totally Unknown".data "---------------".data []
      = some ("Totally Unknown".data, []) :=
  (c8_arbitrary_header_dialects.1 "Totally Unknown".data
    "---------------".data [] (by decide) (by decide) (by decide)).trans
    (by decide)

/-- C9. The similarity threshold the auditor uses is the hardcoded constant
`0.9`, whatever the environment variable supplies: the environment-derived
value (default `0`, which the claim says should disable the auditor) is
immediately overwritten on the next line, and because the range check runs
after the overwrite, out-of-range environment values no longer raise. -/
theorem c9_similarity_ratio_hardcoded :
    (∀ envValue, similarityRatioConfig envValue = .ok (9 / 10))
    ∧ ((9 : ℚ) / 10 ≠ 0)
    ∧ similarityRatioConfig (some 5) = .ok (9 / 10) := by
  refine ⟨fun envValue => ?_, by norm_num, ?_⟩
  · simp only [similarityRatioConfig]
    rw [if_neg (by norm_num)]
  · simp only [similarityRatioConfig]
    rw [if_neg (by norm_num)]

/-- C10. The item parser returns a mapping with at most one entry per item
name for every section body; when the body contains several items with the
same name, the description of the last (bottom-most) occurrence wins and the
earlier ones are discarded — as in the concrete body
`"a\n    one.\na\n    two."`, which maps `a` to `"\n    two."`. -/
theorem c10_parse_section_items_last_wins :
    (∀ body : List Char, (dkeys (parseSectionItems body)).Nodup)
    ∧ (∀ (body : List Char) (k : String),
        dget? (parseSectionItems body) k
          = (((itemOccurrences body).filter
              (fun e => decide (e.1 = k))).getLast?).map (fun e => e.2))
    ∧ parseSectionItems "a\n    one.\na\n    two.".data
        = [("a", "\n    two.")] := by
  refine ⟨?_, ?_, by decide⟩
  · intro body
    rw [parseSectionItems, dupdate]
    exact nodup_dkeys_dinsertMany _ _ _ _ (by simp [dkeys])
  · intro body k
    rw [parseSectionItems, dupdate, dget?_dinsertMany]
    cases ((itemOccurrences body).filter (fun e => decide (e.1 = k))).getLast?
    · rfl
    · rfl

end DocstringInheritance
